import Mathlib

/-!
Shallow embedding of the HEIC-to-WebP batch converter (src/src/main.cpp)
and proofs about its claims: argument parsing, file discovery, output path
resolution, the per-file conversion worker, the batch loop and the process
exit code.

Machine integers are modelled as `Int`/`Nat` (no overflow is relevant to the
claims); filesystem state and the codec libraries are modelled as explicit
oracles, mirroring the exact sequence of checks the C++ code performs.
-/

set_option autoImplicit false

namespace HeicConv

/-! ### Character and string helpers (std::tolower, std::isspace, digits) -/

/-- ASCII lowercase of one character, as `std::tolower` behaves in the "C"
locale on the characters that can occur in a file extension. -/
def asciiToLowerChar (c : Char) : Char :=
  if 'A' ≤ c ∧ c ≤ 'Z' then Char.ofNat (c.toNat + 32) else c

/-- Lowercase every character of a string (the loop `for (char& c : ext) c = std::tolower(c);`). -/
def asciiLower (s : String) : String :=
  String.mk (s.toList.map asciiToLowerChar)

/-- Whitespace as classified by `std::isspace` in the "C" locale. -/
def isSpaceChar (c : Char) : Bool :=
  c = ' ' || c = '\t' || c = '\n' || c = '\r' || c = Char.ofNat 11 || c = Char.ofNat 12

/-- Decimal digit test. -/
def isDigitChar (c : Char) : Bool :=
  '0' ≤ c && c ≤ '9'

/-- Numeric value of a list of decimal digits, most significant first. -/
def natOfDigits (cs : List Char) : Nat :=
  cs.foldl (fun a c => a * 10 + (c.toNat - '0'.toNat)) 0

/-- Model of `std::stoi`: skip leading whitespace, optional sign, then a
nonempty run of digits (trailing junk ignored).  `none` models the
`std::invalid_argument` exception thrown when no digits are found.
Overflow (`std::out_of_range`) is not modelled: the claims only involve
small values. -/
def stoi (s : String) : Option Int :=
  let cs := (s.toList).dropWhile isSpaceChar
  let signed : Bool × List Char :=
    match cs with
    | '-' :: r => (true, r)
    | '+' :: r => (false, r)
    | _ => (false, cs)
  let ds := signed.2.takeWhile isDigitChar
  if ds = [] then none
  else some (if signed.1 then -(natOfDigits ds : Int) else (natOfDigits ds : Int))

/-! ### Path model

A path is a list of components; the last component is the filename.
`std::filesystem::path::stem` / `::extension` split the filename at its
last dot, except that a filename of `.` or `..`, or whose only dot is its
first character, has an empty extension. -/

abbrev Path := List String

/-- Index of the last occurrence of `c`, if any. -/
def lastIdxOf (c : Char) : List Char → Option Nat
  | [] => none
  | x :: xs =>
    match lastIdxOf c xs with
    | some n => some (n + 1)
    | none => if x = c then some 0 else none

/-- Split a filename into (stem, extension) following the
`std::filesystem::path` rules. -/
def cppSplitExt (f : String) : String × String :=
  if f = "." ∨ f = ".." then (f, "")
  else
    match lastIdxOf '.' f.toList with
    | none => (f, "")
    | some 0 => (f, "")
    | some i => (String.mk (f.toList.take i), String.mk (f.toList.drop i))

/-- `path.stem()` of a filename. -/
def cppStem (f : String) : String := (cppSplitExt f).1

/-- `path.extension()` of a filename (includes the leading dot when nonempty). -/
def cppExt (f : String) : String := (cppSplitExt f).2

/-- Filename (last component) of a path. -/
def filename (p : Path) : String := p.getLast?.getD ""

/-- `path.parent_path()`: everything but the last component. -/
def parentPath (p : Path) : Path := p.dropLast

/-- The extension test of `is_heic_file`: lowercased extension equals
`.heic` or `.heif`. -/
def heicName (n : String) : Bool :=
  let e := asciiLower (cppExt n)
  e = ".heic" || e = ".heif"

/-! ### Filesystem tree and file discovery -/

/-- A filesystem entry: a regular file or a directory with children.
(Only these two kinds matter to the program: `is_heic_file` rejects
everything that is not a regular file.) -/
inductive FSEntry where
  | file (name : String)
  | dir (name : String) (children : List FSEntry)

/-- Name of an entry. -/
def entryName : FSEntry → String
  | .file n => n
  | .dir n _ => n

/-- `is_heic_file`: a regular file whose lowercased extension is `.heic` or
`.heif`.  Directories fail the `fs::is_regular_file` check. -/
def is_heic_file : FSEntry → Bool
  | .file n => heicName n
  | .dir _ _ => false

/-- `fs::recursive_directory_iterator` filtered by `is_heic_file`:
every entry of the whole subtree is visited in pre-order and kept iff it
is a regular file with a matching extension. -/
def findRec (pre : Path) : List FSEntry → List Path
  | [] => []
  | e :: rest =>
    (if is_heic_file e then [pre ++ [entryName e]] else []) ++
      (match e with
       | .file _ => []
       | .dir n cs => findRec (pre ++ [n]) cs) ++
      findRec pre rest

/-- `fs::directory_iterator` filtered by `is_heic_file`: immediate children only. -/
def findFlat (pre : Path) : List FSEntry → List Path
  | [] => []
  | e :: rest =>
    (if is_heic_file e then [pre ++ [entryName e]] else []) ++ findFlat pre rest

/-- `find_heic_files(dir, recursive)`, over the directory's children. -/
def find_heic_files (pre : Path) (children : List FSEntry) (recursive : Bool) : List Path :=
  if recursive then findRec pre children else findFlat pre children

/-- All regular files among the immediate children (no extension filter). -/
def allFlat (pre : Path) : List FSEntry → List Path
  | [] => []
  | .file n :: rest => (pre ++ [n]) :: allFlat pre rest
  | .dir _ _ :: rest => allFlat pre rest

/-- All regular files of the whole subtree, in the same pre-order the
recursive iterator uses (no extension filter). -/
def allRec (pre : Path) : List FSEntry → List Path
  | [] => []
  | .file n :: rest => (pre ++ [n]) :: allRec pre rest
  | .dir n cs :: rest => allRec (pre ++ [n]) cs ++ allRec pre rest

/-! ### Output path resolution -/

/-- `get_output_path`: override directory when nonempty, else the source's
parent directory, joined with `stem + ".webp"`. -/
def get_output_path (input : Path) (output_dir : Path) : Path :=
  (if output_dir = [] then parentPath input else output_dir) ++
    [cppStem (filename input) ++ ".webp"]

/-! ### Options and argument parsing -/

/-- The `Options` struct, with its C++ default member values. -/
structure Options where
  input : String := ""
  output_dir : String := ""
  quality : Int := 85
  recursive : Bool := false
  verbose : Bool := false
deriving DecidableEq

/-- Outcome of `parse_args`: it can exit the process (help prints and exits 0,
argument errors exit 1), let an exception escape (`std::stoi` on a
non-numeric quality value), or return the parsed options. -/
inductive ParseResult where
  | exited (code : Nat)
  | threw
  | ok (opts : Options)
deriving DecidableEq

/-- First character of a string, if any.  C++ `arg[0]` on an empty
`std::string` reads the null terminator, which is not `'-'`, so the empty
string behaves like a positional argument in both the source and this model. -/
def headChar (s : String) : Option Char := s.toList.head?

/-- The loop body of `parse_args`, processing the arguments after `argv[0]`
left to right; flags taking a value consume the following argument. -/
def parseLoop : Options → List String → ParseResult
  | opts, [] => .ok opts
  | opts, arg :: rest =>
    if arg = "-h" ∨ arg = "--help" then .exited 0
    else if arg = "-o" ∨ arg = "--output" then
      match rest with
      | v :: rest2 => parseLoop { opts with output_dir := v } rest2
      | [] => .exited 1
    else if arg = "-q" ∨ arg = "--quality" then
      match rest with
      | v :: rest2 =>
        match stoi v with
        | none => .threw
        | some q =>
          if q < 1 ∨ q > 100 then .exited 1
          else parseLoop { opts with quality := q } rest2
      | [] => .exited 1
    else if arg = "-r" ∨ arg = "--recursive" then parseLoop { opts with recursive := true } rest
    else if arg = "-v" ∨ arg = "--verbose" then parseLoop { opts with verbose := true } rest
    else if headChar arg = some '-' then .exited 1
    else parseLoop { opts with input := arg } rest

/-- `parse_args`, over the arguments after the program name. -/
def parse_args (args : List String) : ParseResult := parseLoop {} args

/-! ### Conversion worker

The codec libraries and the output stream are external collaborators; an
oracle records what each call would report for one source file.  The worker
is the exact cascade of checks of `convert_heic_to_webp`. -/

/-- What the external calls report during one conversion:
`heif_context_read_from_file`, `heif_context_get_primary_image_handle`,
`heif_decode_image`, the size returned by `WebPEncodeRGB` (0 means encode
failure), whether the `std::ofstream` opens, and whether the OS-level write
of the bytes succeeds. -/
structure CodecOracle where
  readOk : Bool
  handleOk : Bool
  decodeOk : Bool
  webpSize : Nat
  openOk : Bool
  writeOk : Bool
deriving DecidableEq

/-- `convert_heic_to_webp`: returns `false` on read/handle/decode failure,
zero-size encode, or failure to open the output stream.  After
`out.write(...)` and `out.close()` the stream state is never inspected, so
`writeOk` does not influence the result — this mirrors the source exactly. -/
def convert_heic_to_webp (o : CodecOracle) : Bool :=
  if o.readOk = false then false
  else if o.handleOk = false then false
  else if o.decodeOk = false then false
  else if o.webpSize = 0 then false
  else if o.openOk = false then false
  else true

/-- Modelled from the spec: the ConversionWorker of §4.5, whose step 3
"write encoded bytes to destinationPath → on failure record WriteError and
stop" demands that a failed write be reported as a failure.  Identical to
the source's worker except that the write result is checked. -/
def convertSpecWorker (o : CodecOracle) : Bool :=
  if o.readOk = false then false
  else if o.handleOk = false then false
  else if o.decodeOk = false then false
  else if o.webpSize = 0 then false
  else if o.openOk = false then false
  else if o.writeOk = false then false
  else true

/-- Destination file contents, as an association list from paths to byte
lists (most recent write first). -/
abbrev Store := List (Path × List Nat)

/-- Write (create or truncate) a file: the new contents replace whatever
was at that path. -/
def setFile (st : Store) (p : Path) (bytes : List Nat) : Store :=
  (p, bytes) :: st.filter (fun e => !(e.1 == p))

/-- Read a file's contents from the store. -/
def getFile (st : Store) (p : Path) : Option (List Nat) :=
  (st.find? (fun e => e.1 == p)).map (fun e => e.2)

/-- `convert_heic_to_webp` with the write step made visible on a store:
opening the `std::ofstream` (default `out|trunc` mode) succeeds or fails
independently of whether the destination already exists, and on success
the encoded bytes replace the destination's previous contents. -/
def convertWithStore (o : CodecOracle) (bytes : List Nat) (dest : Path) (st : Store) :
    Bool × Store :=
  if o.readOk = false then (false, st)
  else if o.handleOk = false then (false, st)
  else if o.decodeOk = false then (false, st)
  else if o.webpSize = 0 then (false, st)
  else if o.openOk = false then (false, st)
  else (true, setFile st dest bytes)

/-! ### Batch loop and main -/

/-- The counters and per-file records accumulated by the loop in `main`:
`success_count`, `error_count`, and one `(source, destination, outcome)`
record per attempted file, in order. -/
structure BatchResult where
  success : Nat
  errors : Nat
  results : List (Path × Path × Bool)
deriving DecidableEq

/-- The batch loop of `main`: for each file compute the output path, run the
conversion (its outcome abstracted as a function of the source path), and
bump the matching counter.  No outcome stops the loop. -/
def runBatch (outcome : Path → Bool) (odir : Path) : List Path → BatchResult
  | [] => ⟨0, 0, []⟩
  | f :: rest =>
    let ok := outcome f
    let out := get_output_path f odir
    let r := runBatch outcome odir rest
    ⟨(if ok then 1 else 0) + r.success, (if ok then 0 else 1) + r.errors,
      (f, out, ok) :: r.results⟩

/-- How `main` terminates: a normal exit with a code, or an exception
escaping `main` (abnormal termination). -/
inductive MainOutcome where
  | exit (code : Nat)
  | threw
deriving DecidableEq

/-- The filesystem and codec facts `main` consults, abstracted:
`abs` is `fs::absolute`, `pathExists` is `fs::exists`, `isDirectory` is
`fs::is_directory`, `dirTree` gives a directory's children, and
`convertOk` is the outcome of `convert_heic_to_webp` on one source path. -/
structure SysEnv where
  abs : String → Path
  pathExists : String → Bool
  isDirectory : String → Bool
  dirTree : String → List FSEntry
  convertOk : Path → Bool

/-- The C++ `output_dir` string as a path: the empty string is the empty
path. -/
def strToDir (s : String) : Path := if s = "" then [] else [s]

/-- The file list `main` builds: `find_heic_files` when the input is a
directory, else the single input path pushed unconditionally. -/
def discoveredFiles (env : SysEnv) (opts : Options) : List Path :=
  if env.isDirectory opts.input then
    find_heic_files (env.abs opts.input) (env.dirTree opts.input) opts.recursive
  else [env.abs opts.input]

/-- `main`: usage exit when no argument, parse, reject an empty input and a
nonexistent path, the empty-directory early return 0, then the batch loop
and `error_count > 0 ? 1 : 0`.  (`fs::create_directories` on the override
is not modelled: no claim depends on it.) -/
def mainModel (env : SysEnv) (args : List String) : MainOutcome :=
  if args = [] then .exit 1
  else
    match parse_args args with
    | .exited c => .exit c
    | .threw => .threw
    | .ok opts =>
      if opts.input = "" then .exit 1
      else if env.pathExists opts.input = false then .exit 1
      else
        let files := discoveredFiles env opts
        if env.isDirectory opts.input = true ∧ files = [] then .exit 0
        else if (runBatch env.convertOk (strToDir opts.output_dir) files).errors > 0 then .exit 1
        else .exit 0

/-! ### Helper lemmas -/

theorem filename_concat (pre : Path) (n : String) : filename (pre ++ [n]) = n := by
  simp [filename, List.getLast?_concat]

theorem countP_split {α : Type} (p : α → Bool) :
    ∀ l : List α, l.countP p + l.countP (fun a => !p a) = l.length
  | [] => by simp
  | a :: l => by
    have ih := countP_split p l
    by_cases h : p a <;> simp [List.countP_cons, h] <;> omega

/-- The batch loop's counters and records, characterized: the success and
error counters count the outcomes, and the records pair every file, in
order, with its resolved output path and its outcome. -/
theorem runBatch_spec (outcome : Path → Bool) (odir : Path) :
    ∀ files : List Path,
      (runBatch outcome odir files).success = files.countP outcome ∧
      (runBatch outcome odir files).errors = files.countP (fun f => !outcome f) ∧
      (runBatch outcome odir files).results
        = files.map (fun f => (f, get_output_path f odir, outcome f))
  | [] => by simp [runBatch]
  | f :: rest => by
    have ih := runBatch_spec outcome odir rest
    refine ⟨?_, ?_, ?_⟩ <;>
      by_cases h : outcome f <;>
        simp [runBatch, List.countP_cons, h, ih.1, ih.2.1, ih.2.2] <;> omega

theorem findFlat_eq (pre : Path) :
    ∀ es : List FSEntry,
      findFlat pre es = (allFlat pre es).filter (fun p => heicName (filename p))
  | [] => by simp [findFlat, allFlat]
  | .file n :: rest => by
    have ih := findFlat_eq pre rest
    by_cases h : heicName n <;>
      simp [findFlat, allFlat, is_heic_file, entryName, h, ih, filename_concat]
  | .dir n cs :: rest => by
    simp [findFlat, allFlat, is_heic_file, findFlat_eq pre rest]

theorem findRec_eq :
    ∀ (pre : Path) (es : List FSEntry),
      findRec pre es = (allRec pre es).filter (fun p => heicName (filename p))
  | _, [] => by simp [findRec, allRec]
  | pre, .file n :: rest => by
    have ih := findRec_eq pre rest
    by_cases h : heicName n <;>
      simp [findRec, allRec, is_heic_file, entryName, h, ih, filename_concat]
  | pre, .dir n cs :: rest => by
    simp [findRec, allRec, is_heic_file, findRec_eq (pre ++ [n]) cs, findRec_eq pre rest,
      List.filter_append]

/-! ### C1: failure isolation in the batch loop -/

/-- C1: for every batch of N discovered files in which exactly one file's
conversion fails, the loop still attempts every file: the summary counts
N−1 successes and 1 failure, and every one of the N records is attributed
to its correct source path with its own outcome and output path. -/
theorem batch_failure_isolation (outcome : Path → Bool) (odir : Path) (files : List Path)
    (h : files.countP (fun f => !outcome f) = 1) :
    (runBatch outcome odir files).success = files.length - 1 ∧
    (runBatch outcome odir files).errors = 1 ∧
    (runBatch outcome odir files).results.map (fun r => r.1) = files ∧
    ∀ r ∈ (runBatch outcome odir files).results,
      r.2.1 = get_output_path r.1 odir ∧ r.2.2 = outcome r.1 := by
  obtain ⟨hs, he, hr⟩ := runBatch_spec outcome odir files
  have hsplit := countP_split outcome files
  refine ⟨by omega, by rw [he, h], by simp [hr, Function.comp_def], ?_⟩
  rw [hr]
  intro r hmem
  simp only [List.mem_map] at hmem
  obtain ⟨f, _, rfl⟩ := hmem
  exact ⟨rfl, rfl⟩

def demoOutcome : Path → Bool := fun p => !(p == ["b.heic"])

def demoFiles : List Path := [["a.heic"], ["b.heic"], ["c.heic"]]

theorem batch_failure_isolation_w :
    (runBatch demoOutcome [] demoFiles).success = 2 ∧
    (runBatch demoOutcome [] demoFiles).errors = 1 ∧
    (runBatch demoOutcome [] demoFiles).results.map (fun r => r.1) = demoFiles := by
  have h := batch_failure_isolation demoOutcome [] demoFiles (by decide)
  exact ⟨h.1, h.2.1, h.2.2.1⟩

/-! ### C5: directory discovery -/

/-- C5: over any directory contents, discovery returns exactly the regular
files whose extension is `.heic` or `.heif` case-insensitively — the
immediate children when `recursive` is false, the full subtree when
`recursive` is true. -/
theorem directory_discovery_exact (pre : Path) (cs : List FSEntry) :
    find_heic_files pre cs false = (allFlat pre cs).filter (fun p => heicName (filename p)) ∧
    find_heic_files pre cs true = (allRec pre cs).filter (fun p => heicName (filename p)) :=
  ⟨by simp [find_heic_files, findFlat_eq], by simp [find_heic_files, findRec_eq]⟩

/-! ### C6: output path resolution -/

/-- C6: the destination is the override directory when nonempty and the
source's parent directory when empty, joined with the source filename whose
final extension only is replaced by `.webp`; for `a.b.heic` the stem is
`a.b`; the resolver is a pure function (equal arguments give equal
results). -/
theorem output_path_resolution :
    (∀ input odir : Path, odir ≠ [] →
       get_output_path input odir = odir ++ [cppStem (filename input) ++ ".webp"]) ∧
    (∀ input : Path,
       get_output_path input [] = parentPath input ++ [cppStem (filename input) ++ ".webp"]) ∧
    cppStem "a.b.heic" = "a.b" ∧ cppExt "a.b.heic" = ".heic" := by
  refine ⟨?_, ?_, by decide, by decide⟩
  · intro input odir h
    simp [get_output_path, h]
  · intro input
    simp [get_output_path]

theorem output_path_resolution_w :
    get_output_path ["photos", "a.b.heic"] ["out"] = ["out", "a.b.webp"] := by
  have h := output_path_resolution.1 ["photos", "a.b.heic"] ["out"] (by decide)
  exact h.trans (by decide)

/-! ### C7: quality validation -/

/-- A parse that exits with code 1 makes `main` exit with code 1 for every
filesystem and codec environment: no file is ever processed. -/
theorem exitedOne_main (env : SysEnv) (args : List String) (hne : args ≠ [])
    (hp : parse_args args = .exited 1) : mainModel env args = .exit 1 := by
  simp [mainModel, hne, hp]

/-- C7: a supplied quality value inside 1–100 is accepted (parsing continues
with that quality), and one outside the range exits with code 1 during
argument parsing — for every environment the run ends there, before any
file is processed, so the failure is never a per-file one. -/
theorem quality_validation (opts : Options) (v : String) (n : Int) (rest : List String)
    (hst : stoi v = some n) :
    ((1 ≤ n ∧ n ≤ 100) →
       parseLoop opts ("-q" :: v :: rest) = parseLoop { opts with quality := n } rest) ∧
    ((n < 1 ∨ 100 < n) →
       parseLoop opts ("-q" :: v :: rest) = .exited 1 ∧
       ∀ (env : SysEnv) (args : List String),
         args ≠ [] → parse_args args = .exited 1 → mainModel env args = .exit 1) := by
  constructor
  · intro hin
    have hq : ¬(n < 1 ∨ n > 100) := by omega
    simp [parseLoop, hst, hq]
  · intro hout
    have hq : n < 1 ∨ n > 100 := hout
    exact ⟨by simp [parseLoop, hst, hq], fun env args => exitedOne_main env args⟩

theorem quality_validation_w :
    parseLoop {} ["-q", "50"] = .ok { quality := 50 } := by
  have h := (quality_validation {} "50" 50 [] (by decide)).1 (by decide)
  exact h.trans rfl

/-! ### C2: process exit code -/

/-- C2: the program exits 0 when every attempted conversion succeeds or the
discovered batch is empty, and exits 1 when any file fails, when the input
path does not exist, when a supplied quality value is outside 1–100 (the
parse exits, and an exited-1 parse makes the whole run exit 1), or when no
input argument is given (no argument at all, or options parse to an empty
input). -/
theorem exit_code_spec (env : SysEnv) :
    mainModel env [] = .exit 1 ∧
    (∀ (args : List String) (opts : Options), args ≠ [] → parse_args args = .ok opts →
       opts.input = "" → mainModel env args = .exit 1) ∧
    (∀ (args : List String) (opts : Options), args ≠ [] → parse_args args = .ok opts →
       opts.input ≠ "" → env.pathExists opts.input = false → mainModel env args = .exit 1) ∧
    (∀ (opts : Options) (v : String) (n : Int) (rest : List String),
       stoi v = some n → (n < 1 ∨ 100 < n) → parseLoop opts ("-q" :: v :: rest) = .exited 1) ∧
    (∀ args : List String, args ≠ [] → parse_args args = .exited 1 →
       mainModel env args = .exit 1) ∧
    (∀ (args : List String) (opts : Options), args ≠ [] → parse_args args = .ok opts →
       opts.input ≠ "" → env.pathExists opts.input = true →
       ((discoveredFiles env opts = [] ∨
           ∀ f ∈ discoveredFiles env opts, env.convertOk f = true) →
          mainModel env args = .exit 0) ∧
       ((∃ f ∈ discoveredFiles env opts, env.convertOk f = false) →
          mainModel env args = .exit 1)) := by
  refine ⟨by simp [mainModel], ?_, ?_, ?_, fun args => exitedOne_main env args, ?_⟩
  · intro args opts hne hp hin
    simp [mainModel, hne, hp, hin]
  · intro args opts hne hp hin hex
    simp [mainModel, hne, hp, hin, hex]
  · intro opts v n rest hst hq
    simp [parseLoop, hst, hq]
  · intro args opts hne hp hin hex
    constructor
    · rintro (hempty | hall)
      · by_cases hd : env.isDirectory opts.input = true
        · simp [mainModel, hne, hp, hin, hex, hd, hempty]
        · exfalso
          have hd' : env.isDirectory opts.input = false := by simpa using hd
          have : discoveredFiles env opts = [env.abs opts.input] := by
            simp [discoveredFiles, hd']
          rw [this] at hempty
          exact List.cons_ne_nil _ _ hempty
      · have herr : (runBatch env.convertOk (strToDir opts.output_dir)
            (discoveredFiles env opts)).errors = 0 := by
          rw [(runBatch_spec _ _ _).2.1, List.countP_eq_zero]
          intro f hf
          simp [hall f hf]
        simp [mainModel, hne, hp, hin, hex, herr]
    · rintro ⟨f, hf, hfail⟩
      have hne2 : discoveredFiles env opts ≠ [] := by
        intro h0
        rw [h0] at hf
        exact List.not_mem_nil f hf
      have herr : 0 < (runBatch env.convertOk (strToDir opts.output_dir)
          (discoveredFiles env opts)).errors := by
        rw [(runBatch_spec _ _ _).2.1]
        exact List.countP_pos_iff.mpr ⟨f, hf, by simp [hfail]⟩
      simp [mainModel, hne, hp, hin, hex, hne2, herr]

def envMissing : SysEnv :=
  ⟨fun s => [s], fun _ => false, fun _ => false, fun _ => [], fun _ => true⟩

theorem exit_code_spec_w : mainModel envMissing ["x.heic"] = .exit 1 :=
  (exit_code_spec envMissing).2.2.1 ["x.heic"] { input := "x.heic" }
    (by decide) (by decide) (by decide) (by decide)

/-! ### C3: single-file root rule (corrected) -/

/-- A single-file environment: the root exists, is not a directory, and its
conversion fails (as a non-HEIC file's decode step would). -/
def envNotes : SysEnv :=
  ⟨fun s => [s], fun _ => true, fun _ => false, fun _ => [], fun _ => false⟩

/-- C3 counterexample: `notes.txt` is a single existing file that fails the
classifier, yet the batch contains it (discovery is not consulted for a
single-file root), a conversion on it is attempted and recorded, and the
run exits 1 with a per-file failure — the claim's "no conversion is
attempted on a non-source single file" is false on the code. -/
theorem single_file_no_filter_cex :
    heicName "notes.txt" = false ∧
    discoveredFiles envNotes { input := "notes.txt" } = [["notes.txt"]] ∧
    (runBatch envNotes.convertOk [] (discoveredFiles envNotes { input := "notes.txt" })).results
      = [(["notes.txt"], ["notes.webp"], false)] ∧
    mainModel envNotes ["notes.txt"] = .exit 1 := by
  decide

/-- C3 (amended): when the root is a single existing file, `main` pushes it
into the batch unconditionally — the classifier is never consulted, so a
conversion is attempted even on a non-source single file; classifier
filtering applies only to directory roots. -/
theorem single_file_unconditional (env : SysEnv) (opts : Options)
    (h : env.isDirectory opts.input = false) :
    discoveredFiles env opts = [env.abs opts.input] := by
  simp [discoveredFiles, h]

theorem single_file_unconditional_w :
    discoveredFiles envNotes { input := "pic.png" } = [["pic.png"]] :=
  single_file_unconditional envNotes { input := "pic.png" } rfl

/-! ### C4: write-step failure handling (code bug) -/

/-- Decode and encode succeed, the output stream opens, but the OS-level
write of the encoded bytes fails (e.g. the disk fills up). -/
def writeFailOracle : CodecOracle := ⟨true, true, true, 5, true, false⟩

/-- C4: the source's worker never inspects the stream after `out.write` and
`out.close`, so a conversion whose write failed after the stream opened is
returned as a success — while the worker the spec demands reports it as a
failure.  The partially written destination file is thus counted a
success, contradicting the spec. -/
theorem write_failure_counted_success :
    convert_heic_to_webp writeFailOracle = true ∧
    convertSpecWorker writeFailOracle = false ∧
    writeFailOracle.openOk = true ∧ writeFailOracle.writeOk = false := by
  decide

/-! ### C8: destination-naming idempotence and overwrite policy -/

/-- C8: the destination path is a pure function of the source and options,
so converting the same source twice resolves the same destination both
times; whether a conversion succeeds never depends on the prior contents of
the store (an existing destination file does not make it fail), a
successful conversion leaves exactly the new encoded bytes at the
destination (create/truncate semantics), and re-running the conversion on
the store the first run produced gives the same result again. -/
theorem overwrite_policy (o : CodecOracle) (bytes : List Nat) (input odir : Path)
    (st st' : Store) :
    (convertWithStore o bytes (get_output_path input odir) st).1
      = (convertWithStore o bytes (get_output_path input odir) st').1 ∧
    ((convertWithStore o bytes (get_output_path input odir) st).1 = true →
       getFile (convertWithStore o bytes (get_output_path input odir) st).2
         (get_output_path input odir) = some bytes) ∧
    (convertWithStore o bytes (get_output_path input odir)
        (convertWithStore o bytes (get_output_path input odir) st).2).1
      = (convertWithStore o bytes (get_output_path input odir) st).1 := by
  refine ⟨?_, ?_, ?_⟩ <;> unfold convertWithStore <;> split_ifs <;>
    simp [getFile, setFile, List.find?]

def okOracle : CodecOracle := ⟨true, true, true, 3, true, true⟩

theorem overwrite_policy_w :
    getFile (convertWithStore okOracle [7, 8] (get_output_path ["d", "a.heic"] [])
        [(["d", "a.webp"], [1])]).2 (get_output_path ["d", "a.heic"] []) = some [7, 8] :=
  (overwrite_policy okOracle [7, 8] ["d", "a.heic"] [] [(["d", "a.webp"], [1])] []).2.1
    (by decide)

/-! ### C9: multiple positional arguments, last one wins -/

/-- A non-flag argument (its first character is not `-`) falls into the
final `else` of the parse loop: it silently becomes the input, replacing
whatever was there. -/
theorem positional_step (opts : Options) (arg : String) (rest : List String)
    (h : headChar arg ≠ some '-') :
    parseLoop opts (arg :: rest) = parseLoop { opts with input := arg } rest := by
  have hx : ∀ s : String, headChar s = some '-' → arg ≠ s := fun s hs heq => h (heq ▸ hs)
  rw [parseLoop.eq_def]
  simp [hx "-h" rfl, hx "--help" rfl, hx "-o" rfl, hx "--output" rfl,
    hx "-q" rfl, hx "--quality" rfl, hx "-r" rfl, hx "--recursive" rfl,
    hx "-v" rfl, hx "--verbose" rfl, h]

theorem positional_fold :
    ∀ (qs : List String) (p : String) (opts : Options),
      (∀ x ∈ qs ++ [p], headChar x ≠ some '-') →
      parseLoop opts (qs ++ [p]) = .ok { opts with input := p }
  | [], p, opts, h => by
    rw [List.nil_append, positional_step opts p [] (h p (by simp))]
    rfl
  | q :: qs, p, opts, h => by
    have ih := positional_fold qs p { opts with input := q }
      (fun x hx => h x (List.mem_cons_of_mem q hx))
    rw [List.cons_append, positional_step opts q (qs ++ [p]) (h q (by simp)), ih]

/-- C9: with several positional (non-flag) arguments, parsing succeeds with
no error or warning and only the last positional becomes the input — every
earlier one is silently discarded (all other option fields keep their
defaults). -/
theorem multiple_positionals_last_wins (qs : List String) (p : String)
    (h : ∀ x ∈ qs ++ [p], headChar x ≠ some '-') :
    parse_args (qs ++ [p]) = .ok { input := p } :=
  positional_fold qs p {} h

theorem multiple_positionals_last_wins_w :
    parse_args ["a.heic", "b.heic"] = .ok { input := "b.heic" } :=
  multiple_positionals_last_wins ["a.heic"] "b.heic" (by decide)

/-! ### C10: non-integer quality value throws out of std::stoi -/

/-- C10: a quality value with no leading digits makes `std::stoi` throw; the
exception is unhandled, so the program terminates abnormally, bypassing the
1–100 range check and its error message — while an integer-parseable
out-of-range value takes the documented exit-1 path. -/
theorem stoi_throw_behavior :
    (∀ (opts : Options) (v : String) (rest : List String),
       stoi v = none → parseLoop opts ("-q" :: v :: rest) = .threw) ∧
    stoi "abc" = none ∧
    parse_args ["photo.heic", "-q", "abc"] = .threw ∧
    (∀ env : SysEnv, mainModel env ["photo.heic", "-q", "abc"] = .threw) ∧
    parse_args ["photo.heic", "-q", "200"] = .exited 1 := by
  have habc : parse_args ["photo.heic", "-q", "abc"] = .threw := by decide
  refine ⟨?_, by decide, habc, ?_, by decide⟩
  · intro opts v rest hst
    simp [parseLoop, hst]
  · intro env
    simp [mainModel, habc]

theorem stoi_throw_behavior_w : parseLoop {} ["-q", "xyz"] = .threw :=
  stoi_throw_behavior.1 {} "xyz" [] (by decide)

end HeicConv
